import Mathlib

/-!
Verification development for the email-contacts-extractor repository.

The two source files (`extract_contacts.py` and `linkedin_contacts.py`) are
shallowly embedded below.  Strings are modelled as `List Char` (`Str`), the
insertion-ordered Python `dict` as an association list, Python `set` as a
duplicate-free insertion list, and `datetime.strptime` as a token matcher over
the fixed format strings appearing in the source.  All definitions are
executable; theorems about the claims follow the definitions.
-/

namespace ECE

/-- Strings are modelled as lists of characters. -/
abbrev Str := List Char

/-- Coerce a Lean string literal into the `Str` model. -/
def str (s : String) : Str := s.data

/-- The double-quote character. -/
def dq : Char := Char.ofNat 34

/-- The single-quote character. -/
def sq : Char := Char.ofNat 39

/-- Python `str.strip()` whitespace class (ASCII part, which is what the
repository's inputs contain). -/
def isSpaceC (c : Char) : Bool :=
  c == ' ' || c == '\t' || c == '\n' || c == '\r' || c == Char.ofNat 11 || c == Char.ofNat 12

/-- ASCII lowercasing of one character, as Python `str.lower()` acts on the
ASCII range used by the repository. -/
def asciiLowerChar (c : Char) : Char :=
  if 65 ≤ c.toNat ∧ c.toNat ≤ 90 then Char.ofNat (c.toNat + 32) else c

/-- Python `str.lower()`. -/
def lowerStr (s : Str) : Str := s.map asciiLowerChar

/-- Drop the longest suffix whose characters satisfy `p`. -/
def dropEndWhile (p : Char → Bool) : Str → Str
  | [] => []
  | c :: t =>
    match dropEndWhile p t with
    | [] => if p c then [] else [c]
    | x :: xs => c :: x :: xs

/-- Python `str.lstrip()`. -/
def trimLeft (s : Str) : Str := s.dropWhile isSpaceC

/-- Python `str.rstrip()`. -/
def trimRight : Str → Str := dropEndWhile isSpaceC

/-- Python `str.strip()`. -/
def trimWs (s : Str) : Str := trimRight (trimLeft s)

/-- Python `str.strip(q)` for a single character `q`: remove every leading and
trailing occurrence of `q`. -/
def stripChar (q : Char) (s : Str) : Str :=
  dropEndWhile (fun c => c == q) (List.dropWhile (fun c => c == q) s)

/-- Python `str.replace(c, '')`. -/
def removeChar (c : Char) (s : Str) : Str := s.filter (fun x => !(x == c))

/-- `True` iff `pat` occurs at the start of `s`. -/
def startsWithStr : Str → Str → Bool
  | [], _ => true
  | _ :: _, [] => false
  | p :: ps, c :: cs => p == c && startsWithStr ps cs

/-- Python `pat in s` substring test. -/
def containsSub (pat : Str) : Str → Bool
  | [] => startsWithStr pat []
  | c :: t => startsWithStr pat (c :: t) || containsSub pat t

/-- Decimal digit test. -/
def isDigitC (c : Char) : Bool := '0' ≤ c && c ≤ '9'

/-- Value of a decimal digit. -/
def digitVal (c : Char) : Nat := c.toNat - 48

/-- Decimal rendering of a natural number. -/
def natToStr (n : Nat) : Str := (toString n).data

/-- Zero-pad to two digits (`%02d`). -/
def pad2 (n : Nat) : Str := if n < 10 then '0' :: natToStr n else natToStr n

/-- Zero-pad to four digits (`%04d`), as `datetime.isoformat` renders years. -/
def pad4 (n : Nat) : Str :=
  if n < 10 then str "000" ++ natToStr n
  else if n < 100 then str "00" ++ natToStr n
  else if n < 1000 then '0' :: natToStr n
  else natToStr n

/-! ## Datetime model

`datetime.strptime` is applied in the source only to the fixed format lists of
`ContactExtractor._parse_date` and of the LinkedIn connection-date loop, so the
embedding models exactly the directives those formats use
(`%a %d %b %Y %H %M %S %z %m` plus literals and whitespace). -/

/-- A parsed `datetime` value; `tz` is the UTC offset in seconds for
offset-aware values (`%z`), `none` for naive ones. -/
structure PyDateTime where
  year : Nat
  month : Nat
  day : Nat
  hour : Nat
  minute : Nat
  second : Nat
  tz : Option Int
deriving DecidableEq

/-- Gregorian leap-year rule, as in Python's `calendar`/`datetime`. -/
def isLeap (y : Nat) : Bool := (y % 4 == 0 && y % 100 != 0) || y % 400 == 0

/-- Days in a month of the proleptic Gregorian calendar. -/
def daysInMonth (y m : Nat) : Nat :=
  if m = 2 then (if isLeap y then 29 else 28)
  else if m = 4 ∨ m = 6 ∨ m = 9 ∨ m = 11 then 30
  else 31

/-- Days in all years before year `y` (proleptic Gregorian). -/
def daysBeforeYear (y : Nat) : Nat :=
  365 * (y - 1) + (y - 1) / 4 - (y - 1) / 100 + (y - 1) / 400

/-- Days in the months of year `y` before month `m`. -/
def daysBeforeMonth (y m : Nat) : Nat :=
  (List.range (m - 1)).foldl (fun a i => a + daysInMonth y (i + 1)) 0

/-- Proleptic-Gregorian ordinal of a calendar day, as `datetime.toordinal`. -/
def toOrdinal (y m d : Nat) : Nat := daysBeforeYear y + daysBeforeMonth y m + (d - 1)

/-- Comparison key of a datetime: seconds on the proleptic-Gregorian time line,
with the `%z` offset applied as Python does when comparing aware datetimes. -/
def dtKey (t : PyDateTime) : Int :=
  (toOrdinal t.year t.month t.day : Int) * 86400
    + t.hour * 3600 + t.minute * 60 + t.second - t.tz.getD 0

/-- `datetime.isoformat()` tail for the offset: `±HH:MM`, plus `:SS` when the
offset has a seconds part. -/
def isoTz : Option Int → Str
  | none => []
  | some off =>
    let a := off.natAbs
    (if off < 0 then '-' else '+') ::
      pad2 (a / 3600) ++ ':' :: pad2 (a % 3600 / 60)
        ++ (if a % 60 ≠ 0 then ':' :: pad2 (a % 60) else [])

/-- `datetime.isoformat()` (microseconds are always zero here and omitted). -/
def isoformat (t : PyDateTime) : Str :=
  pad4 t.year ++ '-' :: pad2 t.month ++ '-' :: pad2 t.day
    ++ 'T' :: pad2 t.hour ++ ':' :: pad2 t.minute ++ ':' :: pad2 t.second
    ++ isoTz t.tz

/-- The `strptime` directives used by the source's format strings, plus literal
characters and runs of whitespace. -/
inductive FTok where
  | lit : Char → FTok
  | ws : FTok
  | pA : FTok
  | pd : FTok
  | pb : FTok
  | pY : FTok
  | pH : FTok
  | pMin : FTok
  | pS : FTok
  | pz : FTok
  | pMon : FTok
deriving DecidableEq

/-- Field accumulator with `strptime`'s default values. -/
structure DTFields where
  year : Nat := 1900
  month : Nat := 1
  day : Nat := 1
  hour : Nat := 0
  minute : Nat := 0
  second : Nat := 0
  tz : Option Int := none
deriving DecidableEq

/-- Abbreviated weekday names accepted by `%a` (matched case-insensitively). -/
def weekdayNames : List Str :=
  [str "mon", str "tue", str "wed", str "thu", str "fri", str "sat", str "sun"]

/-- Abbreviated month names accepted by `%b`; position + 1 is the month. -/
def monthNames : List Str :=
  [str "jan", str "feb", str "mar", str "apr", str "may", str "jun",
   str "jul", str "aug", str "sep", str "oct", str "nov", str "dec"]

/-- Month number for a (lowercased) three-letter month name. -/
def monthOfName (s : Str) : Option Nat :=
  (monthNames.findIdx? (fun n => n == s)).map (· + 1)

/-- Acceptable two-digit reading for a numeric directive, mirroring the
regular expressions `strptime` compiles for each directive. -/
def num2ok : FTok → Nat → Bool
  | .pd, v => 1 ≤ v && v ≤ 31
  | .pH, v => v ≤ 23
  | .pMin, v => v ≤ 59
  | .pS, v => v ≤ 61
  | .pMon, v => 1 ≤ v && v ≤ 12
  | _, _ => false

/-- Acceptable one-digit reading for a numeric directive. -/
def num1ok : FTok → Nat → Bool
  | .pd, v => 1 ≤ v
  | .pH, _ => true
  | .pMin, _ => true
  | .pS, _ => true
  | .pMon, v => 1 ≤ v
  | _, _ => false

/-- Store the value read for a numeric directive. -/
def setField : FTok → Nat → DTFields → DTFields
  | .pd, v, f => { f with day := v }
  | .pH, v, f => { f with hour := v }
  | .pMin, v, f => { f with minute := v }
  | .pS, v, f => { f with second := v }
  | .pMon, v, f => { f with month := v }
  | _, _, f => f

/-- Whether a token is one of the numeric directives. -/
def isNumTok : FTok → Bool
  | .pd | .pH | .pMin | .pS | .pMon => true
  | _ => false

/-- Parse a `%z` offset (`±HHMM`, `±HH:MM`, optional seconds, or `Z`),
returning the offset in seconds and the rest of the input.  Offsets of 24
hours or more make `strptime` raise, i.e. fail the format. -/
def parseOffset : Str → Option (Int × Str)
  | [] => none
  | c :: s1 =>
    if c = 'Z' then some (0, s1)
    else if c = '+' ∨ c = '-' then
      match s1 with
      | a :: b :: s2 =>
        if isDigitC a && isDigitC b then
          let hh := 10 * digitVal a + digitVal b
          let s3 := match s2 with
            | ':' :: r => r
            | _ => s2
          match s3 with
          | m1 :: m2 :: s4 =>
            if isDigitC m1 && isDigitC m2 then
              let mm := 10 * digitVal m1 + digitVal m2
              let secPart : Nat × Str := match s4 with
                | ':' :: x :: y :: r =>
                  if isDigitC x && isDigitC y then (10 * digitVal x + digitVal y, r)
                  else (0, s4)
                | x :: y :: r =>
                  if isDigitC x && isDigitC y then (10 * digitVal x + digitVal y, r)
                  else (0, s4)
                | _ => (0, s4)
              let total := hh * 3600 + mm * 60 + secPart.1
              if total < 86400 then
                some ((if c = '-' then -(total : Int) else (total : Int)), secPart.2)
              else none
            else none
          | _ => none
        else none
      | _ => none
    else none

/-- Match a format (token list) against the input, accumulating fields.
Numeric directives try a two-digit reading first and fall back to one digit,
as the compiled regular expressions do; the whole input must be consumed. -/
def matchToks : List FTok → Str → DTFields → Option DTFields
  | [], s, f => if s = [] then some f else none
  | t :: ts, s, f =>
    match t with
    | .lit c =>
      match s with
      | [] => none
      | x :: rest =>
        if asciiLowerChar x = asciiLowerChar c then matchToks ts rest f else none
    | .ws =>
      match s with
      | [] => none
      | x :: rest =>
        if isSpaceC x then matchToks ts (rest.dropWhile isSpaceC) f else none
    | .pA =>
      if (lowerStr (s.take 3)) ∈ weekdayNames then matchToks ts (s.drop 3) f else none
    | .pb =>
      match monthOfName (lowerStr (s.take 3)) with
      | some m => matchToks ts (s.drop 3) { f with month := m }
      | none => none
    | .pY =>
      match s with
      | a :: b :: c :: d :: rest =>
        if isDigitC a && isDigitC b && isDigitC c && isDigitC d then
          matchToks ts rest
            { f with year := 1000 * digitVal a + 100 * digitVal b + 10 * digitVal c + digitVal d }
        else none
      | _ => none
    | .pz =>
      match parseOffset s with
      | some (off, rest) => matchToks ts rest { f with tz := some off }
      | none => none
    | tok =>
      let one : Option DTFields :=
        match s with
        | a :: rest =>
          if isDigitC a && num1ok tok (digitVal a) then
            matchToks ts rest (setField tok (digitVal a) f)
          else none
        | [] => none
      match s with
      | a :: b :: rest =>
        if isDigitC a && isDigitC b && num2ok tok (10 * digitVal a + digitVal b) then
          match matchToks ts rest (setField tok (10 * digitVal a + digitVal b) f) with
          | some r => some r
          | none => one
        else one
      | _ => one

/-- The range checks `datetime`'s constructor performs on the matched fields
(an out-of-range value raises `ValueError`, i.e. the format fails). -/
def validDT (f : DTFields) : Bool :=
  1 ≤ f.year && f.year ≤ 9999 && 1 ≤ f.month && f.month ≤ 12
    && 1 ≤ f.day && f.day ≤ daysInMonth f.year f.month
    && f.hour ≤ 23 && f.minute ≤ 59 && f.second ≤ 59

/-- `datetime.strptime(s, fmt)` for one of the source's formats: `some` value
on success, `none` when the format does not match (a `ValueError` in Python,
caught by the callers). -/
def strptimeRun (fmt : List FTok) (s : Str) : Option PyDateTime :=
  match matchToks fmt s {} with
  | some f =>
    if validDT f then some ⟨f.year, f.month, f.day, f.hour, f.minute, f.second, f.tz⟩
    else none
  | none => none

/-- Try an ordered list of formats; the first that matches wins. -/
def tryFormats : List (List FTok) → Str → Option PyDateTime
  | [], _ => none
  | fmt :: fmts, s =>
    match strptimeRun fmt s with
    | some d => some d
    | none => tryFormats fmts s

/-! ## Mail pipeline (`extract_contacts.py`) -/

/-- `ContactExtractor._parse_date`'s format list:
`'%a, %d %b %Y %H:%M:%S %z'`, `'%d %b %Y %H:%M:%S %z'`,
`'%a, %d %b %Y %H:%M:%S'`, `'%d %b %Y %H:%M:%S'`. -/
def mailFormats : List (List FTok) :=
  [[.pA, .lit ',', .ws, .pd, .ws, .pb, .ws, .pY, .ws, .pH, .lit ':', .pMin, .lit ':', .pS, .ws, .pz],
   [.pd, .ws, .pb, .ws, .pY, .ws, .pH, .lit ':', .pMin, .lit ':', .pS, .ws, .pz],
   [.pA, .lit ',', .ws, .pd, .ws, .pb, .ws, .pY, .ws, .pH, .lit ':', .pMin, .lit ':', .pS],
   [.pd, .ws, .pb, .ws, .pY, .ws, .pH, .lit ':', .pMin, .lit ':', .pS]]

/-- `u = pre ++ '(' ++ content` with `content` nonempty and free of `')'`,
at the earliest such `'('` — the region `re.sub(r'\s*\([^)]+\)\s*$', ...)`
removes once the trailing whitespace and final `')'` are peeled off. -/
def findParenSplit : Str → Option (Str × Str)
  | [] => none
  | x :: rest =>
    if x = '(' ∧ rest ≠ [] ∧ ¬(')' ∈ rest) then some ([], rest)
    else
      match findParenSplit rest with
      | some (p, c) => some (x :: p, c)
      | none => none

/-- `re.sub(r'\s*\([^)]+\)\s*$', '', s)`: remove a trailing parenthesized
timezone-name comment together with the whitespace around it. -/
def stripParenComment (s : Str) : Str :=
  let t := trimRight s
  match t.getLast? with
  | some c =>
    if c = ')' then
      match findParenSplit t.dropLast with
      | some (pre, _) => trimRight pre
      | none => s
    else s
  | none => s

/-- `ContactExtractor._parse_date`: `None` for empty input; otherwise strip
the parenthesized comment and try the fixed formats in order on the stripped
string; `None` if none matches.  Every failure path is a caught exception in
the source, so the model is a total function into `Option`. -/
def parse_date (s : Str) : Option PyDateTime :=
  if s = [] then none
  else tryFormats mailFormats (trimWs (stripParenComment s))

/-- Modelled from the spec: `_decode_header_value` delegates to the external
`decode_header` facility, decoding each encoded-word segment with its declared
charset and joining the decoded segments with spaces (§4.2).  Byte-level
charset tables are outside the embedding; on already-decoded text the step
returns the text itself, which is how it is modelled here. -/
def decodeHeaderValue (s : Str) : Str := s

/-- `re.split(r',(?=(?:[^"]*"[^"]*")*[^"]*$)', s)`: split at exactly the
commas that are followed by an even number of double quotes (the lookahead's
meaning), i.e. commas not inside a quoted substring. -/
def splitQuoteAware : Str → List Str
  | [] => [[]]
  | c :: rest =>
    if c = ',' ∧ (rest.count dq) % 2 = 0 then [] :: splitQuoteAware rest
    else
      match splitQuoteAware rest with
      | [] => [[c]]
      | h :: t => (c :: h) :: t

/-- Left inverse of the splitter: rejoin the parts with commas. -/
def joinCommas : List Str → Str
  | [] => []
  | [x] => x
  | x :: y :: t => x ++ ',' :: joinCommas (y :: t)

/-- `s = pre ++ [c] ++ rest` at the first occurrence of `c`. -/
def splitAtFirstChar (c : Char) : Str → Option (Str × Str)
  | [] => none
  | x :: rest =>
    if x = c then some ([], rest)
    else (splitAtFirstChar c rest).map (fun p => (x :: p.1, p.2))

/-- Modelled from the spec: the standard mail-address-pair extraction
(`email.utils.parseaddr`, an external library routine) reads an RFC 2822-style
`Name <addr>` pair or a bare `addr` (§4.2).  For `Name <addr>` the display
name is everything before the `<` (surrounding quotes are stripped later by
the caller); a `<` without a matching `>` yields the empty pair. -/
def parseAddrPair (seg : Str) : Str × Str :=
  match splitAtFirstChar '<' seg with
  | some (pre, rest) =>
    match splitAtFirstChar '>' rest with
    | some (ad, _) => (trimWs pre, ad)
    | none => ([], [])
  | none => ([], seg)

/-- `name.strip().strip('"').strip("'")`. -/
def cleanName (nm : Str) : Str := stripChar sq (stripChar dq (trimWs nm))

/-- `ContactExtractor._parse_email_addresses`: decode, split on commas outside
quotes, extract a pair per segment, keep only pairs whose address is nonempty
and contains `'@'`, lowercase + trim the kept addresses and trim + unquote the
names. -/
def parseEmailAddresses (header_value : Str) : List (Str × Str) :=
  if header_value = [] then []
  else
    (splitQuoteAware (decodeHeaderValue header_value)).filterMap (fun part =>
      let p := parseAddrPair (trimWs part)
      if p.2 ≠ [] ∧ '@' ∈ p.2 then
        some (cleanName p.1, trimWs (lowerStr p.2))
      else none)

/-- One aggregated contact record (the per-key default of `self.contacts`).
`domains` models the Python `set` as a duplicate-free insertion-ordered
list. -/
structure Contact where
  name : Str
  email : Str
  sent_count : Nat
  received_count : Nat
  first_seen : Option PyDateTime
  last_seen : Option PyDateTime
  domains : List Str
deriving DecidableEq

/-- The `defaultdict` per-key default value. -/
def defaultContact : Contact :=
  { name := [], email := [], sent_count := 0, received_count := 0,
    first_seen := none, last_seen := none, domains := [] }

/-- The contacts `dict`, modelled as an insertion-ordered association list
(Python dicts iterate in insertion order; updating an existing key keeps its
position, a new key is appended). -/
abbrev ContactMap := List (Str × Contact)

/-- Lookup in the contact map. -/
def findC : ContactMap → Str → Option Contact
  | [], _ => none
  | (k', v) :: rest, k => if k' = k then some v else findC rest k

/-- Write-back into the contact map: replace in place, or append a new key. -/
def setC : ContactMap → Str → Contact → ContactMap
  | [], k, v => [(k, v)]
  | (k', v') :: rest, k, v =>
    if k' = k then (k, v) :: rest else (k', v') :: setC rest k v

/-- The extractor state the claims concern: the owner's address and the
running contact map. -/
structure Extractor where
  email_address : Str
  contacts : ContactMap
deriving DecidableEq

/-- A fresh extractor for a mailbox owner. -/
def initExtractor (owner : Str) : Extractor :=
  { email_address := owner, contacts := [] }

/-- `email_lower.split('@')[-1]`: the substring after the last `'@'` (the
whole string when there is none). -/
def afterLastAt (s : Str) : Str := (s.reverse.takeWhile (fun c => !(c == '@'))).reverse

/-- The mutation `_update_contact` performs on one (existing or freshly
defaulted) entry: refresh `email`; keep the longest non-empty name; bump one
counter according to `is_sent`; fold the date into `first_seen`/`last_seen`
when present; record the domain. -/
def updContact (c0 : Contact) (name email_lower : Str)
    (date : Option PyDateTime) (is_sent : Bool) : Contact :=
  let c1 : Contact := { c0 with email := email_lower }
  let c2 : Contact :=
    if name ≠ [] ∧ (c1.name = [] ∨ c1.name.length < name.length) then
      { c1 with name := name }
    else c1
  let c3 : Contact :=
    if is_sent then { c2 with sent_count := c2.sent_count + 1 }
    else { c2 with received_count := c2.received_count + 1 }
  let c4 : Contact :=
    match date with
    | none => c3
    | some d =>
      let fs := match c3.first_seen with
        | none => some d
        | some f => if dtKey d < dtKey f then some d else some f
      let ls := match c3.last_seen with
        | none => some d
        | some l => if dtKey l < dtKey d then some d else some l
      { c3 with first_seen := fs, last_seen := ls }
  let dom := afterLastAt email_lower
  if dom ∈ c4.domains then c4 else { c4 with domains := c4.domains ++ [dom] }

/-- `ContactExtractor._update_contact`: skip the owner's own address,
otherwise apply `updContact` to the entry at the lowercased address (created
with the `defaultdict` default when absent). -/
def updateContact (st : Extractor) (name email_addr : Str)
    (date : Option PyDateTime) (is_sent : Bool) : Extractor :=
  let email_lower := lowerStr email_addr
  if email_lower = lowerStr st.email_address then st
  else
    { st with
      contacts := setC st.contacts email_lower
        (updContact ((findC st.contacts email_lower).getD defaultContact)
          name email_lower date is_sent) }

/-- The stored contact at a key, with the `defaultdict` default. -/
def contactAt (st : Extractor) (k : Str) : Contact :=
  (findC st.contacts k).getD defaultContact

/-- Stored `sent_count` at a key. -/
def sentCountOf (st : Extractor) (k : Str) : Nat := (contactAt st k).sent_count

/-- Stored `received_count` at a key. -/
def receivedCountOf (st : Extractor) (k : Str) : Nat := (contactAt st k).received_count

/-- Stored display name at a key. -/
def nameOf (st : Extractor) (k : Str) : Str := (contactAt st k).name

/-- Stored `first_seen` at a key. -/
def firstSeenOf (st : Extractor) (k : Str) : Option PyDateTime := (contactAt st k).first_seen

/-- Stored `last_seen` at a key. -/
def lastSeenOf (st : Extractor) (k : Str) : Option PyDateTime := (contactAt st k).last_seen

/-- The header subset one scanned message contributes
(`FROM`, `TO`, `CC`, `DATE`). -/
structure Message where
  fromH : Str
  toH : Str
  ccH : Str
  dateH : Str
deriving DecidableEq

/-- One `_update_contact` call for one extracted `(name, address)` pair. -/
def applyPair (is_sent : Bool) (date : Option PyDateTime)
    (st : Extractor) (p : Str × Str) : Extractor :=
  updateContact st p.1 p.2 date is_sent

/-- The per-message body of `ContactExtractor.scan_folder`: parse the date
once, run the address parser over `From` with role `is_sent=False`, then over
`To` and `Cc` with role `is_sent=True`.  The folder's `is_sent` flag is in
scope in the source but unused by these calls; it is kept as a parameter to
state that fact. -/
def processMessage (st : Extractor) (msg : Message) (folder_is_sent : Bool) : Extractor :=
  let date := parse_date msg.dateH
  (parseEmailAddresses msg.toH ++ parseEmailAddresses msg.ccH).foldl (applyPair true date)
    ((parseEmailAddresses msg.fromH).foldl (applyPair false date) st)

/-- `is_sent = 'sent' in folder.lower()` of `scan_folder`. -/
def folderIsSent (folder : Str) : Bool := containsSub (str "sent") (lowerStr folder)

/-- Scanning the messages of one folder (the aggregation effect of
`scan_folder`; selection, fetching and progress printing are external I/O). -/
def scanMessages (st : Extractor) (folder : Str) (msgs : List Message) : Extractor :=
  msgs.foldl (fun s m => processMessage s m (folderIsSent folder)) st

/-- One `(name, email, date, isSentRole)` observation fed to the aggregator. -/
structure Obs where
  name : Str
  addr : Str
  date : Option PyDateTime
  is_sent : Bool

/-- Feed a stream of observations to the aggregator. -/
def runObs (st : Extractor) (obs : List Obs) : Extractor :=
  obs.foldl (fun s o => updateContact s o.name o.addr o.date o.is_sent) st

/-- One row of `get_contacts`' result. -/
structure OutRecord where
  name : Str
  email : Str
  sent_count : Nat
  received_count : Nat
  total_interactions : Nat
  first_seen : Str
  last_seen : Str
  domain : Str
deriving DecidableEq

/-- The record `get_contacts` builds for one included contact. -/
def mkRecord (k : Str) (c : Contact) : OutRecord :=
  { name := c.name, email := k,
    sent_count := c.sent_count, received_count := c.received_count,
    total_interactions := c.sent_count + c.received_count,
    first_seen := match c.first_seen with | some d => isoformat d | none => [],
    last_seen := match c.last_seen with | some d => isoformat d | none => [],
    domain := (c.domains.head?).getD [] }

/-- Stable insertion step for the descending sort: a later record moves ahead
of an earlier one only when its total is strictly greater, which is what the
stable `list.sort(key=..., reverse=True)` produces. -/
def insertDesc (x : OutRecord) : List OutRecord → List OutRecord
  | [] => [x]
  | y :: ys =>
    if x.total_interactions < y.total_interactions then y :: insertDesc x ys
    else x :: y :: ys

/-- Stable descending sort by `total_interactions`. -/
def sortDesc : List OutRecord → List OutRecord
  | [] => []
  | x :: xs => insertDesc x (sortDesc xs)

/-- `ContactExtractor.get_contacts`: keep the contacts whose total reaches the
threshold (in map iteration order), then sort stably by descending total. -/
def get_contacts (st : Extractor) (min_interactions : Nat) : List OutRecord :=
  sortDesc (st.contacts.filterMap (fun p =>
    if min_interactions ≤ p.2.sent_count + p.2.received_count then
      some (mkRecord p.1 p.2)
    else none))

/-! ## LinkedIn pipeline (`linkedin_contacts.py`) -/

/-- One CSV data row as `csv.DictReader` yields it: a finite map from column
name to cell value, modelled as an association list with unique keys. -/
abbrev Row := List (Str × Str)

/-- `dict` lookup on a row. -/
def lookupRow (row : Row) (k : Str) : Option Str :=
  (row.find? (fun p => p.1 == k)).map Prod.snd

/-- `row.get(k, d)`. -/
def rowGet (row : Row) (k : Str) (d : Str) : Str := (lookupRow row k).getD d

/-- `row.get('First Name', row.get('first_name', '')).strip()`. -/
def resolveFirstName (row : Row) : Str :=
  trimWs (rowGet row (str "First Name") (rowGet row (str "first_name") []))

/-- `row.get('Last Name', row.get('last_name', '')).strip()`. -/
def resolveLastName (row : Row) : Str :=
  trimWs (rowGet row (str "Last Name") (rowGet row (str "last_name") []))

/-- `row.get('Email Address', row.get('Email', row.get('email', ''))).strip()`. -/
def resolveEmail (row : Row) : Str :=
  trimWs (rowGet row (str "Email Address")
    (rowGet row (str "Email") (rowGet row (str "email") [])))

/-- `row.get('Company', row.get('company', '')).strip()`. -/
def resolveCompany (row : Row) : Str :=
  trimWs (rowGet row (str "Company") (rowGet row (str "company") []))

/-- `row.get('Position', row.get('position', '')).strip()`. -/
def resolvePosition (row : Row) : Str :=
  trimWs (rowGet row (str "Position") (rowGet row (str "position") []))

/-- `row.get('Connected On', row.get('connected_on', '')).strip()`. -/
def resolveConnectedOn (row : Row) : Str :=
  trimWs (rowGet row (str "Connected On") (rowGet row (str "connected_on") []))

/-- `row.get('URL', row.get('Profile URL', row.get('url', ''))).strip()`. -/
def resolveUrl (row : Row) : Str :=
  trimWs (rowGet row (str "URL")
    (rowGet row (str "Profile URL") (rowGet row (str "url") [])))

/-- The LinkedIn connection-date format list:
`'%d %b %Y'`, `'%b %d, %Y'`, `'%Y-%m-%d'`, `'%m/%d/%Y'`. -/
def linkedinFormats : List (List FTok) :=
  [[.pd, .ws, .pb, .ws, .pY],
   [.pb, .ws, .pd, .lit ',', .ws, .pY],
   [.pY, .lit '-', .pMon, .lit '-', .pd],
   [.pMon, .lit '/', .pd, .lit '/', .pY]]

/-- One output record of `parse_linkedin_export`. -/
structure LContact where
  name : Str
  first_name : Str
  last_name : Str
  email : Str
  company : Str
  position : Str
  domain : Str
  connected_on : Str
  linkedin_url : Str
  source : Str
deriving DecidableEq

/-- The record built for one kept LinkedIn row (the loop body of
`parse_linkedin_export` after the name-empty check). -/
def buildContact (row : Row) : LContact :=
  let first_name := resolveFirstName row
  let last_name := resolveLastName row
  let connected_on := resolveConnectedOn row
  let company := resolveCompany row
  let conn_date : Option PyDateTime :=
    if connected_on ≠ [] then tryFormats linkedinFormats connected_on else none
  let domain : Str :=
    if company ≠ [] then (removeChar ',' (removeChar ' ' (lowerStr company))).take 20
    else []
  { name := trimWs (first_name ++ ' ' :: last_name),
    first_name := first_name,
    last_name := last_name,
    email := resolveEmail row,
    company := company,
    position := resolvePosition row,
    domain := domain,
    connected_on := match conn_date with | some d => isoformat d | none => connected_on,
    linkedin_url := resolveUrl row,
    source := str "linkedin" }

/-- `parse_linkedin_export`'s row loop: build one record per row, dropping the
rows whose resolved first and last names are both empty. -/
def parse_linkedin_export (rows : List Row) : List LContact :=
  rows.filterMap (fun row =>
    if resolveFirstName row = [] ∧ resolveLastName row = [] then none
    else some (buildContact row))

/-! ## Concrete fixtures used by the claims' examples -/

/-- The header list of testable property 2 / claim C5:
`"Doe, Jane" <jane@x.com>, bob@y.com`. -/
def doeHeader : Str :=
  dq :: str "Doe, Jane" ++ dq :: str " <jane@x.com>, bob@y.com"

/-- A message whose `From` header is the mailbox owner's own address. -/
def ownMsg : Message :=
  { fromH := str "me@x.com", toH := [], ccH := [], dateH := [] }

/-- A LinkedIn row with a parseable connection date. -/
def rowIso : Row :=
  [(str "First Name", str "A"), (str "Connected On", str "05 Jan 2024")]

/-- A LinkedIn row with an unparseable connection date. -/
def rowRaw : Row :=
  [(str "First Name", str "A"), (str "Connected On", str "Jan sometime 2024")]

/-- The company of testable property 9 / claim C9. -/
def acmeRow : Row :=
  [(str "First Name", str "A"), (str "Company", str "Acme, Inc.")]

/-- Observation stream for the C2 witness. -/
def obsW : List Obs :=
  [⟨[], str "ME@x.COM", none, false⟩, ⟨str "Bob", str "BoB@Y.com", none, true⟩]

/-- Partial state for the C4 witness: one observation with name `Jo`. -/
def joState : Extractor :=
  updateContact (initExtractor (str "me@x.com")) (str "Jo") (str "jo@a.com") none false

/-! ## Supporting lemmas -/

theorem toNat_charOfNat {n : Nat} (h : n < 55296) : (Char.ofNat n).toNat = n := by
  rw [Char.ofNat, dif_pos (Or.inl h)]
  rfl

theorem asciiLowerChar_toNat_of (c : Char) (h : 65 ≤ c.toNat ∧ c.toNat ≤ 90) :
    (asciiLowerChar c).toNat = c.toNat + 32 := by
  unfold asciiLowerChar
  rw [if_pos h]
  exact toNat_charOfNat (by omega)

theorem asciiLowerChar_eq_of_not (c : Char) (h : ¬(65 ≤ c.toNat ∧ c.toNat ≤ 90)) :
    asciiLowerChar c = c := by
  unfold asciiLowerChar
  rw [if_neg h]

theorem asciiLowerChar_idem (c : Char) :
    asciiLowerChar (asciiLowerChar c) = asciiLowerChar c := by
  by_cases h : 65 ≤ c.toNat ∧ c.toNat ≤ 90
  · have h1 := asciiLowerChar_toNat_of c h
    exact asciiLowerChar_eq_of_not _ (by omega)
  · rw [asciiLowerChar_eq_of_not c h]
    exact asciiLowerChar_eq_of_not c h

theorem lowerStr_idem (s : Str) : lowerStr (lowerStr s) = lowerStr s := by
  unfold lowerStr
  rw [List.map_map]
  exact List.map_congr_left (fun c _ => asciiLowerChar_idem c)

theorem findC_setC_self (m : ContactMap) (k : Str) (v : Contact) :
    findC (setC m k v) k = some v := by
  induction m with
  | nil => simp [setC, findC]
  | cons p rest ih =>
    by_cases h : p.1 = k
    · simp [setC, h, findC]
    · simp [setC, findC, h, ih]

theorem findC_setC_ne (m : ContactMap) (k k' : Str) (v : Contact) (h : k' ≠ k) :
    findC (setC m k v) k' = findC m k' := by
  induction m with
  | nil => simp [setC, findC, Ne.symm h]
  | cons p rest ih =>
    obtain ⟨a, b⟩ := p
    by_cases hk : a = k
    · subst hk
      simp [setC, findC, Ne.symm h]
    · simp only [setC, if_neg hk, findC]
      rw [ih]

theorem mem_setC {m : ContactMap} {k : Str} {v : Contact} {p : Str × Contact}
    (h : p ∈ setC m k v) : p = (k, v) ∨ p ∈ m := by
  induction m with
  | nil => simpa [setC] using h
  | cons q rest ih =>
    obtain ⟨a, b⟩ := q
    by_cases hk : a = k
    · subst hk
      simp only [setC, if_pos rfl] at h
      rcases List.mem_cons.1 h with h1 | h1
      · exact Or.inl h1
      · exact Or.inr (List.mem_cons_of_mem _ h1)
    · simp only [setC, if_neg hk] at h
      rcases List.mem_cons.1 h with h1 | h1
      · exact Or.inr (h1 ▸ List.mem_cons_self _ _)
      · rcases ih h1 with h2 | h2
        · exact Or.inl h2
        · exact Or.inr (List.mem_cons_of_mem _ h2)

theorem findC_mem {m : ContactMap} {k : Str} {v : Contact}
    (h : findC m k = some v) : (k, v) ∈ m := by
  induction m with
  | nil => simp [findC] at h
  | cons q rest ih =>
    obtain ⟨a, b⟩ := q
    by_cases hk : a = k
    · subst hk
      simp only [findC, if_pos rfl] at h
      cases h
      exact List.mem_cons_self _ _
    · simp only [findC, if_neg hk] at h
      exact List.mem_cons_of_mem _ (ih h)


theorem updContact_email (c0 : Contact) (nm k : Str) (d : Option PyDateTime) (r : Bool) :
    (updContact c0 nm k d r).email = k := by
  cases d <;> simp only [updContact, apply_ite Contact.email, ite_self]

theorem updContact_name (c0 : Contact) (nm k : Str) (d : Option PyDateTime) (r : Bool) :
    (updContact c0 nm k d r).name =
      if nm ≠ [] ∧ (c0.name = [] ∨ c0.name.length < nm.length) then nm else c0.name := by
  cases d <;> simp only [updContact, apply_ite Contact.name, ite_self]

theorem updContact_sent (c0 : Contact) (nm k : Str) (d : Option PyDateTime) (r : Bool) :
    (updContact c0 nm k d r).sent_count =
      if r then c0.sent_count + 1 else c0.sent_count := by
  cases d <;> simp only [updContact, apply_ite Contact.sent_count, ite_self]

theorem updContact_received (c0 : Contact) (nm k : Str) (d : Option PyDateTime) (r : Bool) :
    (updContact c0 nm k d r).received_count =
      if r then c0.received_count else c0.received_count + 1 := by
  cases d <;> simp only [updContact, apply_ite Contact.received_count, ite_self]

theorem updContact_first_seen_none (c0 : Contact) (nm k : Str) (r : Bool) :
    (updContact c0 nm k none r).first_seen = c0.first_seen := by
  simp only [updContact, apply_ite Contact.first_seen, ite_self]

theorem updContact_last_seen_none (c0 : Contact) (nm k : Str) (r : Bool) :
    (updContact c0 nm k none r).last_seen = c0.last_seen := by
  simp only [updContact, apply_ite Contact.last_seen, ite_self]

theorem updContact_first_seen_some (c0 : Contact) (nm k : Str) (d : PyDateTime) (r : Bool) :
    (updContact c0 nm k (some d) r).first_seen =
      (match c0.first_seen with
       | none => some d
       | some f => if dtKey d < dtKey f then some d else some f) := by
  simp only [updContact, apply_ite Contact.first_seen, ite_self]

theorem updContact_last_seen_some (c0 : Contact) (nm k : Str) (d : PyDateTime) (r : Bool) :
    (updContact c0 nm k (some d) r).last_seen =
      (match c0.last_seen with
       | none => some d
       | some l => if dtKey l < dtKey d then some d else some l) := by
  simp only [updContact, apply_ite Contact.last_seen, ite_self]

theorem updContact_domains_ne (c0 : Contact) (nm k : Str) (d : Option PyDateTime) (r : Bool) :
    (updContact c0 nm k d r).domains ≠ [] := by
  cases d <;> simp only [updContact, apply_ite Contact.domains, ite_self] <;>
    split <;> first
      | exact List.ne_nil_of_mem ‹_›
      | simp

theorem updateContact_skip {st : Extractor} {nm ad : Str} {d : Option PyDateTime} {r : Bool}
    (h : lowerStr ad = lowerStr st.email_address) :
    updateContact st nm ad d r = st := by
  unfold updateContact
  rw [if_pos h]

theorem updateContact_email_address (st : Extractor) (nm ad : Str)
    (d : Option PyDateTime) (r : Bool) :
    (updateContact st nm ad d r).email_address = st.email_address := by
  unfold updateContact
  dsimp only
  split <;> rfl

theorem updateContact_contacts {st : Extractor} {nm ad : Str} {d : Option PyDateTime} {r : Bool}
    (h : lowerStr ad ≠ lowerStr st.email_address) :
    (updateContact st nm ad d r).contacts =
      setC st.contacts (lowerStr ad)
        (updContact (contactAt st (lowerStr ad)) nm (lowerStr ad) d r) := by
  unfold updateContact contactAt
  rw [if_neg h]

theorem contactAt_updateContact_self {st : Extractor} {nm ad : Str}
    {d : Option PyDateTime} {r : Bool} (h : lowerStr ad ≠ lowerStr st.email_address) :
    contactAt (updateContact st nm ad d r) (lowerStr ad) =
      updContact (contactAt st (lowerStr ad)) nm (lowerStr ad) d r := by
  unfold contactAt
  rw [updateContact_contacts h, findC_setC_self]
  rfl

theorem contactAt_updateContact_ne (st : Extractor) (nm ad : Str)
    (d : Option PyDateTime) (r : Bool) (k : Str) (hk : k ≠ lowerStr ad) :
    contactAt (updateContact st nm ad d r) k = contactAt st k := by
  unfold updateContact
  dsimp only
  split
  · rfl
  · unfold contactAt
    dsimp only
    rw [findC_setC_ne _ _ _ _ hk]

/-! ## Claim theorems -/

theorem runObs_email_address (obs : List Obs) (st : Extractor) :
    (runObs st obs).email_address = st.email_address := by
  induction obs generalizing st with
  | nil => rfl
  | cons o rest ih =>
    simp only [runObs, List.foldl_cons]
    rw [show (rest.foldl (fun s o => updateContact s o.name o.addr o.date o.is_sent)
        (updateContact st o.name o.addr o.date o.is_sent)) =
        runObs (updateContact st o.name o.addr o.date o.is_sent) rest from rfl]
    rw [ih, updateContact_email_address]

theorem updateContact_owner_free (st : Extractor) (nm ad : Str)
    (d : Option PyDateTime) (r : Bool)
    (hst : ∀ k ∈ st.contacts.map Prod.fst, lowerStr k ≠ lowerStr st.email_address) :
    ∀ k ∈ (updateContact st nm ad d r).contacts.map Prod.fst,
      lowerStr k ≠ lowerStr (updateContact st nm ad d r).email_address := by
  rw [updateContact_email_address]
  unfold updateContact
  dsimp only
  split
  · exact hst
  · next hne =>
    intro k hk
    obtain ⟨p, hp, rfl⟩ := List.mem_map.1 hk
    rcases mem_setC hp with h1 | h1
    · rw [h1]
      dsimp only
      rw [lowerStr_idem]
      exact hne
    · exact hst _ (List.mem_map_of_mem _ h1)

theorem runObs_owner_free (obs : List Obs) (st : Extractor)
    (hst : ∀ k ∈ st.contacts.map Prod.fst, lowerStr k ≠ lowerStr st.email_address) :
    ∀ k ∈ (runObs st obs).contacts.map Prod.fst,
      lowerStr k ≠ lowerStr (runObs st obs).email_address := by
  induction obs generalizing st with
  | nil => exact hst
  | cons o rest ih =>
    simp only [runObs, List.foldl_cons]
    exact ih _ (updateContact_owner_free st o.name o.addr o.date o.is_sent hst)

/-- Claim C2: over any observation stream, the contacts map never acquires an
entry keyed by the mailbox owner's own address, compared case-insensitively. -/
theorem c2_owner_never_entered (owner : Str) (obs : List Obs) (k : Str)
    (h : k ∈ (runObs (initExtractor owner) obs).contacts.map Prod.fst) :
    lowerStr k ≠ lowerStr owner := by
  have h0 : ∀ k' ∈ (initExtractor owner).contacts.map Prod.fst,
      lowerStr k' ≠ lowerStr (initExtractor owner).email_address := by
    intro k' hk'
    simp [initExtractor] at hk'
  have := runObs_owner_free obs (initExtractor owner) h0 k h
  rwa [runObs_email_address] at this

theorem c2_witness :
    (str "bob@y.com" ∈ (runObs (initExtractor (str "Me@X.com")) obsW).contacts.map Prod.fst)
    ∧ lowerStr (str "bob@y.com") ≠ lowerStr (str "Me@X.com") :=
  ⟨by decide, c2_owner_never_entered (str "Me@X.com") obsW (str "bob@y.com") (by decide)⟩

/-- Claim C4: the stored display name is replaced exactly when the observed
candidate is non-empty and strictly longer than the stored name. -/
theorem c4_name_retention (st : Extractor) (nm ad : Str) (d : Option PyDateTime) (r : Bool)
    (h : lowerStr ad ≠ lowerStr st.email_address) :
    nameOf (updateContact st nm ad d r) (lowerStr ad) =
      if nm ≠ [] ∧ (nameOf st (lowerStr ad)).length < nm.length then nm
      else nameOf st (lowerStr ad) := by
  unfold nameOf
  rw [contactAt_updateContact_self h, updContact_name]
  by_cases hnm : nm = []
  · simp [hnm]
  · by_cases hx : (contactAt st (lowerStr ad)).name = []
    · simp [hnm, hx, List.length_pos]
    · simp [hnm, hx]

theorem c4_witness :
    lowerStr (str "jo@a.com") ≠ lowerStr joState.email_address
    ∧ nameOf (updateContact joState (str "Jo Ann") (str "jo@a.com") none true)
        (lowerStr (str "jo@a.com")) =
      (if str "Jo Ann" ≠ [] ∧ (nameOf joState (lowerStr (str "jo@a.com"))).length
            < (str "Jo Ann").length then str "Jo Ann"
       else nameOf joState (lowerStr (str "jo@a.com"))) :=
  ⟨by decide, c4_name_retention joState (str "Jo Ann") (str "jo@a.com") none true (by decide)⟩

theorem tryFormats_eq_none {fmts : List (List FTok)} {s : Str}
    (h : ∀ f ∈ fmts, strptimeRun f s = none) : tryFormats fmts s = none := by
  induction fmts with
  | nil => rfl
  | cons f fs ih =>
    simp only [tryFormats]
    rw [h f (List.mem_cons_self _ _)]
    exact ih (fun g hg => h g (List.mem_cons_of_mem _ hg))

theorem firstSeenOf_update_none (st : Extractor) (nm ad : Str) (r : Bool) (k : Str) :
    firstSeenOf (updateContact st nm ad none r) k = firstSeenOf st k := by
  by_cases hsk : lowerStr ad = lowerStr st.email_address
  · rw [updateContact_skip hsk]
  · by_cases hk : k = lowerStr ad
    · subst hk
      unfold firstSeenOf
      rw [contactAt_updateContact_self hsk, updContact_first_seen_none]
    · unfold firstSeenOf
      rw [contactAt_updateContact_ne _ _ _ _ _ _ hk]

theorem lastSeenOf_update_none (st : Extractor) (nm ad : Str) (r : Bool) (k : Str) :
    lastSeenOf (updateContact st nm ad none r) k = lastSeenOf st k := by
  by_cases hsk : lowerStr ad = lowerStr st.email_address
  · rw [updateContact_skip hsk]
  · by_cases hk : k = lowerStr ad
    · subst hk
      unfold lastSeenOf
      rw [contactAt_updateContact_self hsk, updContact_last_seen_none]
    · unfold lastSeenOf
      rw [contactAt_updateContact_ne _ _ _ _ _ _ hk]

/-- Claim C6: the date parser yields no value on empty or unmatched input, and
an absent date leaves `first_seen` and `last_seen` of every contact
unchanged. -/
theorem c6_unparseable_date (s : Str) (st : Extractor) (nm ad : Str) (r : Bool) (k : Str)
    (h : s = [] ∨ ∀ f ∈ mailFormats, strptimeRun f (trimWs (stripParenComment s)) = none) :
    parse_date s = none
    ∧ firstSeenOf (updateContact st nm ad (parse_date s) r) k = firstSeenOf st k
    ∧ lastSeenOf (updateContact st nm ad (parse_date s) r) k = lastSeenOf st k := by
  have hnone : parse_date s = none := by
    rcases h with h | h
    · simp [parse_date, h]
    · unfold parse_date
      split
      · rfl
      · exact tryFormats_eq_none h
  refine ⟨hnone, ?_, ?_⟩
  · rw [hnone]
    exact firstSeenOf_update_none st nm ad r k
  · rw [hnone]
    exact lastSeenOf_update_none st nm ad r k

theorem c6_witness :
    ((str "second tuesday") = []
      ∨ ∀ f ∈ mailFormats,
          strptimeRun f (trimWs (stripParenComment (str "second tuesday"))) = none)
    ∧ (parse_date (str "second tuesday") = none
       ∧ firstSeenOf (updateContact (initExtractor (str "me@x.com")) (str "Bob")
            (str "bob@y.com") (parse_date (str "second tuesday")) false) (str "bob@y.com")
           = firstSeenOf (initExtractor (str "me@x.com")) (str "bob@y.com")
       ∧ lastSeenOf (updateContact (initExtractor (str "me@x.com")) (str "Bob")
            (str "bob@y.com") (parse_date (str "second tuesday")) false) (str "bob@y.com")
           = lastSeenOf (initExtractor (str "me@x.com")) (str "bob@y.com")) :=
  ⟨Or.inr (by decide),
   c6_unparseable_date (str "second tuesday") (initExtractor (str "me@x.com"))
     (str "Bob") (str "bob@y.com") false (str "bob@y.com") (Or.inr (by decide))⟩


/-- Claim C1 counterexample: the owner's own address is extracted from the
`From` header of `ownMsg`, yet after the message is processed its
`received_count` is still `0` (no entry is created), in both folder
classifications — so "every address extracted from the From header has its
receivedCount incremented" fails as stated. -/
theorem c1_counterexample :
    (([], str "me@x.com") ∈ parseEmailAddresses ownMsg.fromH)
    ∧ receivedCountOf (processMessage (initExtractor (str "me@x.com")) ownMsg false)
        (str "me@x.com") = 0
    ∧ receivedCountOf (processMessage (initExtractor (str "me@x.com")) ownMsg true)
        (str "me@x.com") = 0 := by
  decide

/-- Claim C1 (amended with the owner exception): processing a message is
independent of the folder's `is_sent` flag; the fold structure assigns role
`is_sent=False` to every `From` pair and `is_sent=True` to every `To`/`Cc`
pair; and for any address other than the owner's, a role-`False` update
increments exactly `received_count` and a role-`True` update exactly
`sent_count`. -/
theorem c1_role_assignment (st : Extractor) (msg : Message) (b b' : Bool)
    (nm ad : Str) (d : Option PyDateTime)
    (h : lowerStr ad ≠ lowerStr st.email_address) :
    processMessage st msg b = processMessage st msg b'
    ∧ processMessage st msg b =
        (parseEmailAddresses msg.toH ++ parseEmailAddresses msg.ccH).foldl
          (applyPair true (parse_date msg.dateH))
          ((parseEmailAddresses msg.fromH).foldl
            (applyPair false (parse_date msg.dateH)) st)
    ∧ receivedCountOf (updateContact st nm ad d false) (lowerStr ad)
        = receivedCountOf st (lowerStr ad) + 1
    ∧ sentCountOf (updateContact st nm ad d false) (lowerStr ad)
        = sentCountOf st (lowerStr ad)
    ∧ sentCountOf (updateContact st nm ad d true) (lowerStr ad)
        = sentCountOf st (lowerStr ad) + 1
    ∧ receivedCountOf (updateContact st nm ad d true) (lowerStr ad)
        = receivedCountOf st (lowerStr ad) := by
  refine ⟨rfl, rfl, ?_, ?_, ?_, ?_⟩ <;>
    simp only [receivedCountOf, sentCountOf] <;>
    rw [contactAt_updateContact_self h] <;>
    simp [updContact_sent, updContact_received]

theorem c1_witness :
    lowerStr (str "ann@y.com") ≠ lowerStr ((initExtractor (str "me@x.com")).email_address)
    ∧ (processMessage (initExtractor (str "me@x.com")) ownMsg true
        = processMessage (initExtractor (str "me@x.com")) ownMsg false
       ∧ processMessage (initExtractor (str "me@x.com")) ownMsg true =
          (parseEmailAddresses ownMsg.toH ++ parseEmailAddresses ownMsg.ccH).foldl
            (applyPair true (parse_date ownMsg.dateH))
            ((parseEmailAddresses ownMsg.fromH).foldl
              (applyPair false (parse_date ownMsg.dateH)) (initExtractor (str "me@x.com")))
       ∧ receivedCountOf (updateContact (initExtractor (str "me@x.com"))
            (str "Ann") (str "ann@y.com") none false) (lowerStr (str "ann@y.com"))
          = receivedCountOf (initExtractor (str "me@x.com")) (lowerStr (str "ann@y.com")) + 1
       ∧ sentCountOf (updateContact (initExtractor (str "me@x.com"))
            (str "Ann") (str "ann@y.com") none false) (lowerStr (str "ann@y.com"))
          = sentCountOf (initExtractor (str "me@x.com")) (lowerStr (str "ann@y.com"))
       ∧ sentCountOf (updateContact (initExtractor (str "me@x.com"))
            (str "Ann") (str "ann@y.com") none true) (lowerStr (str "ann@y.com"))
          = sentCountOf (initExtractor (str "me@x.com")) (lowerStr (str "ann@y.com")) + 1
       ∧ receivedCountOf (updateContact (initExtractor (str "me@x.com"))
            (str "Ann") (str "ann@y.com") none true) (lowerStr (str "ann@y.com"))
          = receivedCountOf (initExtractor (str "me@x.com")) (lowerStr (str "ann@y.com"))) :=
  ⟨by decide,
   c1_role_assignment (initExtractor (str "me@x.com")) ownMsg true false
     (str "Ann") (str "ann@y.com") none (by decide)⟩

theorem updateContact_inv_step (st : Extractor) (nm ad : Str)
    (d : Option PyDateTime) (r : Bool)
    (hst : ∀ p ∈ st.contacts,
      p.2.email = p.1 ∧ lowerStr p.1 = p.1
      ∧ 1 ≤ p.2.sent_count + p.2.received_count ∧ p.2.domains ≠ []
      ∧ ((p.2.first_seen = none ∧ p.2.last_seen = none)
         ∨ ∃ f l, p.2.first_seen = some f ∧ p.2.last_seen = some l ∧ dtKey f ≤ dtKey l)) :
    ∀ p ∈ (updateContact st nm ad d r).contacts,
      p.2.email = p.1 ∧ lowerStr p.1 = p.1
      ∧ 1 ≤ p.2.sent_count + p.2.received_count ∧ p.2.domains ≠ []
      ∧ ((p.2.first_seen = none ∧ p.2.last_seen = none)
         ∨ ∃ f l, p.2.first_seen = some f ∧ p.2.last_seen = some l ∧ dtKey f ≤ dtKey l) := by
  unfold updateContact
  dsimp only
  split
  · exact hst
  · intro p hp
    rcases mem_setC hp with h1 | h1
    · subst h1
      dsimp only
      have hdate : ((((findC st.contacts (lowerStr ad)).getD defaultContact).first_seen = none
            ∧ ((findC st.contacts (lowerStr ad)).getD defaultContact).last_seen = none)
          ∨ ∃ f l, ((findC st.contacts (lowerStr ad)).getD defaultContact).first_seen = some f
              ∧ ((findC st.contacts (lowerStr ad)).getD defaultContact).last_seen = some l
              ∧ dtKey f ≤ dtKey l) := by
        rcases hf : findC st.contacts (lowerStr ad) with _ | v
        · exact Or.inl ⟨rfl, rfl⟩
        · exact (hst _ (findC_mem hf)).2.2.2.2
      refine ⟨updContact_email _ nm (lowerStr ad) d r, lowerStr_idem ad, ?_,
        updContact_domains_ne _ _ _ _ _, ?_⟩
      · rw [updContact_sent, updContact_received]
        cases r <;> simp <;> omega
      · cases d with
        | none =>
          rw [updContact_first_seen_none, updContact_last_seen_none]
          exact hdate
        | some dd =>
          rw [updContact_first_seen_some, updContact_last_seen_some]
          rcases hdate with ⟨hf, hl⟩ | ⟨f, l, hf, hl, hfl⟩
          · rw [hf, hl]
            exact Or.inr ⟨dd, dd, rfl, rfl, le_refl _⟩
          · rw [hf, hl]
            dsimp only
            right
            rcases Decidable.em (dtKey dd < dtKey f) with h1 | h1 <;>
              rcases Decidable.em (dtKey l < dtKey dd) with h2 | h2
            · rw [if_pos h1, if_pos h2]
              exact ⟨dd, dd, rfl, rfl, le_refl _⟩
            · rw [if_pos h1, if_neg h2]
              exact ⟨dd, l, rfl, rfl, by omega⟩
            · rw [if_neg h1, if_pos h2]
              exact ⟨f, dd, rfl, rfl, by omega⟩
            · rw [if_neg h1, if_neg h2]
              exact ⟨f, l, rfl, rfl, hfl⟩
    · exact hst p h1

/-- Claim C10: every entry of the contacts map stores its own lowercase key in
`email`, has at least one interaction, a non-empty domain set, and
`first_seen`/`last_seen` either both absent or both present and ordered. -/
theorem c10_entry_invariant (owner : Str) (obs : List Obs) (p : Str × Contact)
    (h : p ∈ (runObs (initExtractor owner) obs).contacts) :
    p.2.email = p.1 ∧ lowerStr p.1 = p.1
    ∧ 1 ≤ p.2.sent_count + p.2.received_count ∧ p.2.domains ≠ []
    ∧ ((p.2.first_seen = none ∧ p.2.last_seen = none)
       ∨ ∃ f l, p.2.first_seen = some f ∧ p.2.last_seen = some l ∧ dtKey f ≤ dtKey l) := by
  have aux : ∀ (os : List Obs) (st : Extractor),
      (∀ q ∈ st.contacts,
        q.2.email = q.1 ∧ lowerStr q.1 = q.1
        ∧ 1 ≤ q.2.sent_count + q.2.received_count ∧ q.2.domains ≠ []
        ∧ ((q.2.first_seen = none ∧ q.2.last_seen = none)
           ∨ ∃ f l, q.2.first_seen = some f ∧ q.2.last_seen = some l ∧ dtKey f ≤ dtKey l)) →
      ∀ q ∈ (runObs st os).contacts,
        q.2.email = q.1 ∧ lowerStr q.1 = q.1
        ∧ 1 ≤ q.2.sent_count + q.2.received_count ∧ q.2.domains ≠ []
        ∧ ((q.2.first_seen = none ∧ q.2.last_seen = none)
           ∨ ∃ f l, q.2.first_seen = some f ∧ q.2.last_seen = some l ∧ dtKey f ≤ dtKey l) := by
    intro os
    induction os with
    | nil => intro st hst; exact hst
    | cons o rest ih =>
      intro st hst
      simp only [runObs, List.foldl_cons]
      exact ih _ (updateContact_inv_step st o.name o.addr o.date o.is_sent hst)
  refine aux obs (initExtractor owner) ?_ p h
  intro q hq
  simp [initExtractor] at hq

theorem c10_witness :
    ((str "ann@x.com",
        ({ name := str "Ann", email := str "ann@x.com", sent_count := 0,
           received_count := 1, first_seen := none, last_seen := none,
           domains := [str "x.com"] } : Contact))
      ∈ (runObs (initExtractor (str "me@x.com"))
          [⟨str "Ann", str "Ann@X.com", none, false⟩]).contacts)
    ∧ ((str "ann@x.com",
        ({ name := str "Ann", email := str "ann@x.com", sent_count := 0,
           received_count := 1, first_seen := none, last_seen := none,
           domains := [str "x.com"] } : Contact)).2.email
        = (str "ann@x.com",
        ({ name := str "Ann", email := str "ann@x.com", sent_count := 0,
           received_count := 1, first_seen := none, last_seen := none,
           domains := [str "x.com"] } : Contact)).1
       ∧ lowerStr (str "ann@x.com",
        ({ name := str "Ann", email := str "ann@x.com", sent_count := 0,
           received_count := 1, first_seen := none, last_seen := none,
           domains := [str "x.com"] } : Contact)).1
        = (str "ann@x.com",
        ({ name := str "Ann", email := str "ann@x.com", sent_count := 0,
           received_count := 1, first_seen := none, last_seen := none,
           domains := [str "x.com"] } : Contact)).1
       ∧ 1 ≤ (str "ann@x.com",
        ({ name := str "Ann", email := str "ann@x.com", sent_count := 0,
           received_count := 1, first_seen := none, last_seen := none,
           domains := [str "x.com"] } : Contact)).2.sent_count
          + (str "ann@x.com",
        ({ name := str "Ann", email := str "ann@x.com", sent_count := 0,
           received_count := 1, first_seen := none, last_seen := none,
           domains := [str "x.com"] } : Contact)).2.received_count
       ∧ (str "ann@x.com",
        ({ name := str "Ann", email := str "ann@x.com", sent_count := 0,
           received_count := 1, first_seen := none, last_seen := none,
           domains := [str "x.com"] } : Contact)).2.domains ≠ []
       ∧ (((str "ann@x.com",
        ({ name := str "Ann", email := str "ann@x.com", sent_count := 0,
           received_count := 1, first_seen := none, last_seen := none,
           domains := [str "x.com"] } : Contact)).2.first_seen = none
          ∧ (str "ann@x.com",
        ({ name := str "Ann", email := str "ann@x.com", sent_count := 0,
           received_count := 1, first_seen := none, last_seen := none,
           domains := [str "x.com"] } : Contact)).2.last_seen = none)
        ∨ ∃ f l, (str "ann@x.com",
        ({ name := str "Ann", email := str "ann@x.com", sent_count := 0,
           received_count := 1, first_seen := none, last_seen := none,
           domains := [str "x.com"] } : Contact)).2.first_seen = some f
            ∧ (str "ann@x.com",
        ({ name := str "Ann", email := str "ann@x.com", sent_count := 0,
           received_count := 1, first_seen := none, last_seen := none,
           domains := [str "x.com"] } : Contact)).2.last_seen = some l
            ∧ dtKey f ≤ dtKey l)) :=
  ⟨by decide,
   c10_entry_invariant (str "me@x.com")
     [⟨str "Ann", str "Ann@X.com", none, false⟩] _ (by decide)⟩


theorem insertDesc_perm (x : OutRecord) (l : List OutRecord) :
    List.Perm (insertDesc x l) (x :: l) := by
  induction l with
  | nil => exact List.Perm.refl _
  | cons y ys ih =>
    unfold insertDesc
    split
    · exact (ih.cons y).trans (List.Perm.swap x y ys)
    · exact List.Perm.refl _

theorem sortDesc_perm (l : List OutRecord) : List.Perm (sortDesc l) l := by
  induction l with
  | nil => exact List.Perm.refl _
  | cons x xs ih => exact (insertDesc_perm x (sortDesc xs)).trans (ih.cons x)

theorem insertDesc_sorted {x : OutRecord} {l : List OutRecord}
    (h : l.Pairwise (fun a b => b.total_interactions ≤ a.total_interactions)) :
    (insertDesc x l).Pairwise (fun a b => b.total_interactions ≤ a.total_interactions) := by
  induction l with
  | nil => simp [insertDesc]
  | cons y ys ih =>
    rw [List.pairwise_cons] at h
    obtain ⟨hy, hys⟩ := h
    unfold insertDesc
    split
    · next hlt =>
      rw [List.pairwise_cons]
      refine ⟨?_, ih hys⟩
      intro z hz
      rcases List.mem_cons.1 ((insertDesc_perm x ys).mem_iff.1 hz) with rfl | h'
      · omega
      · exact hy z h'
    · next hge =>
      rw [List.pairwise_cons]
      refine ⟨?_, List.pairwise_cons.2 ⟨hy, hys⟩⟩
      intro z hz
      rcases List.mem_cons.1 hz with rfl | h'
      · omega
      · have := hy z h'
        omega

theorem sortDesc_sorted (l : List OutRecord) :
    (sortDesc l).Pairwise (fun a b => b.total_interactions ≤ a.total_interactions) := by
  induction l with
  | nil => exact List.Pairwise.nil
  | cons x xs ih => exact insertDesc_sorted ih

theorem insertDesc_filter_eq (x : OutRecord) (l : List OutRecord) (t : Nat) :
    (insertDesc x l).filter (fun r => r.total_interactions == t)
      = (if x.total_interactions = t then [x] else [])
        ++ l.filter (fun r => r.total_interactions == t) := by
  induction l with
  | nil =>
    by_cases hx : x.total_interactions = t <;> simp [insertDesc, hx]
  | cons y ys ih =>
    unfold insertDesc
    split
    · next hlt =>
      rw [List.filter_cons, ih, List.filter_cons]
      by_cases hy : y.total_interactions = t
      · have hx : ¬ x.total_interactions = t := by omega
        simp [hy, hx]
      · simp [hy]
    · next hge =>
      rw [List.filter_cons, List.filter_cons]
      by_cases hx : x.total_interactions = t <;> simp [hx]

theorem sortDesc_filter_eq (l : List OutRecord) (t : Nat) :
    (sortDesc l).filter (fun r => r.total_interactions == t)
      = l.filter (fun r => r.total_interactions == t) := by
  induction l with
  | nil => rfl
  | cons x xs ih =>
    unfold sortDesc
    rw [insertDesc_filter_eq, ih, List.filter_cons]
    by_cases hx : x.total_interactions = t <;> simp [hx]

theorem filterMap_threshold (m : ContactMap) (N : Nat) :
    (m.filterMap (fun p =>
      if N ≤ p.2.sent_count + p.2.received_count then some (mkRecord p.1 p.2) else none))
      = (m.filter (fun p => decide (N ≤ p.2.sent_count + p.2.received_count))).map
          (fun p => mkRecord p.1 p.2) := by
  induction m with
  | nil => rfl
  | cons p rest ih =>
    by_cases h : N ≤ p.2.sent_count + p.2.received_count <;>
      simp [List.filterMap_cons, List.filter_cons, h, ih]

/-- Claim C3: `get_contacts` returns a permutation of exactly the contacts
whose total interaction count reaches the threshold, sorted descending by that
total, with ties kept in the map's original iteration order (the filtered
sublist at each total value is unchanged). -/
theorem c3_ranked_export (st : Extractor) (N : Nat) :
    List.Perm (get_contacts st N)
      ((st.contacts.filter (fun p => decide (N ≤ p.2.sent_count + p.2.received_count))).map
        (fun p => mkRecord p.1 p.2))
    ∧ (get_contacts st N).Pairwise
        (fun a b => b.total_interactions ≤ a.total_interactions)
    ∧ ∀ t : Nat,
        (get_contacts st N).filter (fun r => r.total_interactions == t)
          = ((st.contacts.filter
                (fun p => decide (N ≤ p.2.sent_count + p.2.received_count))).map
              (fun p => mkRecord p.1 p.2)).filter
              (fun r => r.total_interactions == t) := by
  unfold get_contacts
  rw [filterMap_threshold]
  exact ⟨sortDesc_perm _, sortDesc_sorted _, fun t => sortDesc_filter_eq _ t⟩


theorem mem_dropWhile_of_not {p : Char → Bool} {c : Char} {l : Str}
    (hc : p c = false) (h : c ∈ l) : c ∈ l.dropWhile p := by
  induction l with
  | nil => cases h
  | cons x xs ih =>
    rw [List.dropWhile_cons]
    split
    · next hx =>
      rcases List.mem_cons.1 h with rfl | h'
      · rw [hx] at hc
        cases hc
      · exact ih h'
    · exact h

theorem mem_dropEndWhile_of_not {p : Char → Bool} {c : Char} {l : Str}
    (hc : p c = false) (h : c ∈ l) : c ∈ dropEndWhile p l := by
  induction l with
  | nil => cases h
  | cons x xs ih =>
    rcases List.mem_cons.1 h with rfl | h'
    · unfold dropEndWhile
      cases hde : dropEndWhile p xs with
      | nil =>
        rw [if_neg (by simp [hc])]
        exact List.mem_cons_self _ _
      | cons a as => exact List.mem_cons_self _ _
    · have hm := ih h'
      unfold dropEndWhile
      cases hde : dropEndWhile p xs with
      | nil =>
        rw [hde] at hm
        cases hm
      | cons a as =>
        rw [hde] at hm
        exact List.mem_cons_of_mem _ hm

theorem dropEndWhile_cons (p : Char → Bool) (x : Char) (xs : Str) :
    dropEndWhile p (x :: xs) =
      match dropEndWhile p xs with
      | [] => if p x then [] else [x]
      | a :: as => x :: a :: as := rfl

theorem mem_of_mem_dropEndWhile {p : Char → Bool} {c : Char} {l : Str}
    (h : c ∈ dropEndWhile p l) : c ∈ l := by
  induction l with
  | nil => cases h
  | cons x xs ih =>
    rw [dropEndWhile_cons] at h
    cases hde : dropEndWhile p xs with
    | nil =>
      rw [hde] at h
      dsimp only at h
      split at h
      · cases h
      · rcases List.mem_cons.1 h with rfl | h'
        · exact List.mem_cons_self _ _
        · cases h'
    | cons a as =>
      rw [hde] at h
      rcases List.mem_cons.1 h with rfl | h'
      · exact List.mem_cons_self _ _
      · exact List.mem_cons_of_mem _ (ih (by rw [hde]; exact h'))

theorem mem_trimWs_of_not_space {c : Char} {l : Str}
    (hc : isSpaceC c = false) (h : c ∈ l) : c ∈ trimWs l :=
  mem_dropEndWhile_of_not hc (mem_dropWhile_of_not hc h)

theorem mem_of_mem_trimWs {c : Char} {l : Str} (h : c ∈ trimWs l) : c ∈ l :=
  (List.dropWhile_sublist _).mem (mem_of_mem_dropEndWhile h)

theorem lowerStr_mem_fixed {c : Char} {s : Str} (h : c ∈ lowerStr s) :
    asciiLowerChar c = c := by
  obtain ⟨a, _, rfl⟩ := List.mem_map.1 h
  exact asciiLowerChar_idem a

theorem dropWhile_dropWhile_same (p : Char → Bool) (l : Str) :
    List.dropWhile p (List.dropWhile p l) = List.dropWhile p l := by
  induction l with
  | nil => rfl
  | cons x xs ih =>
    rw [List.dropWhile_cons]
    split
    · exact ih
    · next hx => simp [List.dropWhile_cons, hx]

theorem dropEndWhile_idem (p : Char → Bool) (l : Str) :
    dropEndWhile p (dropEndWhile p l) = dropEndWhile p l := by
  induction l with
  | nil => rfl
  | cons x xs ih =>
    cases hde : dropEndWhile p xs with
    | nil =>
      by_cases hx : p x
      · have h1 : dropEndWhile p (x :: xs) = [] := by
          rw [dropEndWhile_cons, hde, if_pos hx]
        rw [h1]
        rfl
      · have h1 : dropEndWhile p (x :: xs) = [x] := by
          rw [dropEndWhile_cons, hde, if_neg hx]
        rw [h1, dropEndWhile_cons]
        simp [dropEndWhile, hx]
    | cons a as =>
      have h1 : dropEndWhile p (x :: xs) = x :: a :: as := by
        rw [dropEndWhile_cons, hde]
      rw [hde] at ih
      rw [h1, dropEndWhile_cons, ih]

theorem dropWhile_dropEndWhile_comm (p : Char → Bool) (l : Str) :
    List.dropWhile p (dropEndWhile p l) = dropEndWhile p (List.dropWhile p l) := by
  induction l with
  | nil => rfl
  | cons x xs ih =>
    by_cases hx : p x
    · have hR : List.dropWhile p (x :: xs) = List.dropWhile p xs := by
        simp [List.dropWhile_cons, hx]
      rw [hR]
      cases hde : dropEndWhile p xs with
      | nil =>
        have hL : dropEndWhile p (x :: xs) = [] := by
          unfold dropEndWhile
          rw [hde, if_pos hx]
        rw [hL, ← ih, hde]
      | cons a as =>
        have hL : dropEndWhile p (x :: xs) = x :: a :: as := by
          unfold dropEndWhile
          rw [hde]
        rw [hL, ← ih, hde]
        simp [List.dropWhile_cons, hx]
    · have hR : List.dropWhile p (x :: xs) = x :: xs := by
        simp [List.dropWhile_cons, hx]
      rw [hR]
      cases hde : dropEndWhile p xs with
      | nil =>
        have hL : dropEndWhile p (x :: xs) = [x] := by
          unfold dropEndWhile
          rw [hde, if_neg (by simp [hx])]
        rw [hL]
        simp [List.dropWhile_cons, hx]
      | cons a as =>
        have hL : dropEndWhile p (x :: xs) = x :: a :: as := by
          unfold dropEndWhile
          rw [hde]
        rw [hL]
        simp [List.dropWhile_cons, hx]

theorem trimWs_idem (l : Str) : trimWs (trimWs l) = trimWs l := by
  unfold trimWs trimLeft trimRight
  have h1 : List.dropWhile isSpaceC (dropEndWhile isSpaceC (List.dropWhile isSpaceC l))
      = dropEndWhile isSpaceC (List.dropWhile isSpaceC l) := by
    rw [dropWhile_dropEndWhile_comm, dropWhile_dropWhile_same]
  rw [h1, dropEndWhile_idem]

theorem lowerStr_trimWs_lowerStr (x : Str) :
    lowerStr (trimWs (lowerStr x)) = trimWs (lowerStr x) := by
  refine (List.map_congr_left ?_).trans (List.map_id _)
  intro c hc
  exact lowerStr_mem_fixed (mem_of_mem_trimWs hc)

theorem splitQuoteAware_ne_nil (s : Str) : splitQuoteAware s ≠ [] := by
  cases s with
  | nil => simp [splitQuoteAware]
  | cons c rest =>
    unfold splitQuoteAware
    split
    · simp
    · cases h : splitQuoteAware rest <;> simp

theorem joinCommas_cons_head (c : Char) (h : Str) (t : List Str) :
    joinCommas ((c :: h) :: t) = c :: joinCommas (h :: t) := by
  cases t <;> rfl

theorem joinCommas_splitQuoteAware (s : Str) : joinCommas (splitQuoteAware s) = s := by
  induction s with
  | nil => rfl
  | cons c rest ih =>
    unfold splitQuoteAware
    split
    · next hc =>
      cases hsp : splitQuoteAware rest with
      | nil => exact absurd hsp (splitQuoteAware_ne_nil rest)
      | cons h t =>
        rw [hsp] at ih
        show joinCommas ([] :: h :: t) = c :: rest
        rw [joinCommas, List.nil_append, ih, hc.1]
    · cases hsp : splitQuoteAware rest with
      | nil => exact absurd hsp (splitQuoteAware_ne_nil rest)
      | cons h t =>
        rw [hsp] at ih
        rw [joinCommas_cons_head, ih]

theorem parseEmailAddresses_mem {h nm ad : Str}
    (hmem : (nm, ad) ∈ parseEmailAddresses h) :
    ad ≠ [] ∧ '@' ∈ ad ∧ lowerStr ad = ad ∧ trimWs ad = ad := by
  unfold parseEmailAddresses at hmem
  split at hmem
  · cases hmem
  · obtain ⟨part, hpart, hsome⟩ := List.mem_filterMap.1 hmem
    dsimp only at hsome
    split at hsome
    · next hcond =>
      simp only [Option.some.injEq, Prod.mk.injEq] at hsome
      obtain ⟨-, had⟩ := hsome
      subst had
      have h1 : '@' ∈ lowerStr (parseAddrPair (trimWs part)).2 :=
        List.mem_map.2 ⟨'@', hcond.2, by decide⟩
      have h2 : '@' ∈ trimWs (lowerStr (parseAddrPair (trimWs part)).2) :=
        mem_trimWs_of_not_space (by decide) h1
      exact ⟨List.ne_nil_of_mem h2, h2, lowerStr_trimWs_lowerStr _, trimWs_idem _⟩
    · cases hsome

/-- Claim C5: every pair the address parser returns has a non-empty,
lowercased, whitespace-trimmed address containing `'@'`; the splitter only
breaks the header at commas (rejoining with commas restores the decoded
header), a comma inside double quotes does not split (the `Doe, Jane` header
yields exactly two pairs), and segments without a usable address are dropped
silently. -/
theorem c5_address_parsing (h nm ad : Str)
    (hmem : (nm, ad) ∈ parseEmailAddresses h) :
    (ad ≠ [] ∧ '@' ∈ ad ∧ lowerStr ad = ad ∧ trimWs ad = ad)
    ∧ joinCommas (splitQuoteAware (decodeHeaderValue h)) = decodeHeaderValue h
    ∧ parseEmailAddresses doeHeader
        = [(str "Doe, Jane", str "jane@x.com"), ([], str "bob@y.com")]
    ∧ parseEmailAddresses (str "foo, bar@x.com") = [([], str "bar@x.com")] :=
  ⟨parseEmailAddresses_mem hmem, joinCommas_splitQuoteAware _, by decide, by decide⟩

theorem c5_witness :
    ((str "Doe, Jane", str "jane@x.com") ∈ parseEmailAddresses doeHeader)
    ∧ ((str "jane@x.com" ≠ [] ∧ '@' ∈ str "jane@x.com"
        ∧ lowerStr (str "jane@x.com") = str "jane@x.com"
        ∧ trimWs (str "jane@x.com") = str "jane@x.com")
       ∧ joinCommas (splitQuoteAware (decodeHeaderValue doeHeader)) = decodeHeaderValue doeHeader
       ∧ parseEmailAddresses doeHeader
           = [(str "Doe, Jane", str "jane@x.com"), ([], str "bob@y.com")]
       ∧ parseEmailAddresses (str "foo, bar@x.com") = [([], str "bar@x.com")]) :=
  ⟨by decide,
   c5_address_parsing doeHeader (str "Doe, Jane") (str "jane@x.com") (by decide)⟩


theorem parse_linkedin_filter_map (rows : List Row) :
    parse_linkedin_export rows
      = (rows.filter (fun r =>
          decide (¬(resolveFirstName r = [] ∧ resolveLastName r = [])))).map buildContact := by
  induction rows with
  | nil => rfl
  | cons r rest ih =>
    unfold parse_linkedin_export at ih ⊢
    rw [List.filterMap_cons, List.filter_cons]
    by_cases h : resolveFirstName r = [] ∧ resolveLastName r = []
    · rw [if_pos h]
      dsimp only
      rw [if_neg (by simp [h]), ih]
    · rw [if_neg h]
      dsimp only
      rw [if_pos (by simp [h]), List.map_cons, ih]

/-- Claim C7: a LinkedIn row is dropped exactly when both resolved names are
empty after trimming; the kept rows appear in input order; every field whose
columns are absent resolves to the empty string in the built record. -/
theorem c7_row_filter (rows : List Row) (row : Row)
    (hE : lookupRow row (str "Email Address") = none ∧ lookupRow row (str "Email") = none
        ∧ lookupRow row (str "email") = none)
    (hC : lookupRow row (str "Company") = none ∧ lookupRow row (str "company") = none)
    (hP : lookupRow row (str "Position") = none ∧ lookupRow row (str "position") = none)
    (hO : lookupRow row (str "Connected On") = none
        ∧ lookupRow row (str "connected_on") = none)
    (hU : lookupRow row (str "URL") = none ∧ lookupRow row (str "Profile URL") = none
        ∧ lookupRow row (str "url") = none) :
    parse_linkedin_export rows
      = (rows.filter (fun r =>
          decide (¬(resolveFirstName r = [] ∧ resolveLastName r = [])))).map buildContact
    ∧ (buildContact row).email = [] ∧ (buildContact row).company = []
    ∧ (buildContact row).position = [] ∧ (buildContact row).connected_on = []
    ∧ (buildContact row).linkedin_url = [] ∧ (buildContact row).domain = [] := by
  obtain ⟨hE1, hE2, hE3⟩ := hE
  obtain ⟨hC1, hC2⟩ := hC
  obtain ⟨hP1, hP2⟩ := hP
  obtain ⟨hO1, hO2⟩ := hO
  obtain ⟨hU1, hU2, hU3⟩ := hU
  have hcomp : resolveCompany row = [] := by
    simp [resolveCompany, rowGet, hC1, hC2]
    rfl
  have hconn : resolveConnectedOn row = [] := by
    simp [resolveConnectedOn, rowGet, hO1, hO2]
    rfl
  refine ⟨parse_linkedin_filter_map rows, ?_, ?_, ?_, ?_, ?_, ?_⟩
  · show resolveEmail row = []
    simp [resolveEmail, rowGet, hE1, hE2, hE3]
    rfl
  · exact hcomp
  · show resolvePosition row = []
    simp [resolvePosition, rowGet, hP1, hP2]
    rfl
  · simp [buildContact, hconn]
  · show resolveUrl row = []
    simp [resolveUrl, rowGet, hU1, hU2, hU3]
    rfl
  · simp [buildContact, hcomp]

theorem c7_witness :
    ((lookupRow [(str "First Name", str "Ann")] (str "Email Address") = none
      ∧ lookupRow [(str "First Name", str "Ann")] (str "Email") = none
      ∧ lookupRow [(str "First Name", str "Ann")] (str "email") = none)
     ∧ (lookupRow [(str "First Name", str "Ann")] (str "Company") = none
      ∧ lookupRow [(str "First Name", str "Ann")] (str "company") = none)
     ∧ (lookupRow [(str "First Name", str "Ann")] (str "Position") = none
      ∧ lookupRow [(str "First Name", str "Ann")] (str "position") = none)
     ∧ (lookupRow [(str "First Name", str "Ann")] (str "Connected On") = none
      ∧ lookupRow [(str "First Name", str "Ann")] (str "connected_on") = none)
     ∧ (lookupRow [(str "First Name", str "Ann")] (str "URL") = none
      ∧ lookupRow [(str "First Name", str "Ann")] (str "Profile URL") = none
      ∧ lookupRow [(str "First Name", str "Ann")] (str "url") = none))
    ∧ (parse_linkedin_export [[(str "First Name", str "Ann")], [(str "Company", str "X")]]
        = ([[(str "First Name", str "Ann")], [(str "Company", str "X")]].filter (fun r =>
            decide (¬(resolveFirstName r = [] ∧ resolveLastName r = [])))).map buildContact
       ∧ (buildContact [(str "First Name", str "Ann")]).email = []
       ∧ (buildContact [(str "First Name", str "Ann")]).company = []
       ∧ (buildContact [(str "First Name", str "Ann")]).position = []
       ∧ (buildContact [(str "First Name", str "Ann")]).connected_on = []
       ∧ (buildContact [(str "First Name", str "Ann")]).linkedin_url = []
       ∧ (buildContact [(str "First Name", str "Ann")]).domain = []) :=
  ⟨⟨⟨by decide, by decide, by decide⟩, ⟨by decide, by decide⟩, ⟨by decide, by decide⟩,
    ⟨by decide, by decide⟩, by decide, by decide, by decide⟩,
   c7_row_filter [[(str "First Name", str "Ann")], [(str "Company", str "X")]]
     [(str "First Name", str "Ann")]
     ⟨by decide, by decide, by decide⟩ ⟨by decide, by decide⟩ ⟨by decide, by decide⟩
     ⟨by decide, by decide⟩ ⟨by decide, by decide, by decide⟩⟩

/-- Claim C8: the emitted connection date is the ISO rendering of the first
matching format applied to the trimmed source string, and the raw trimmed
string itself when no format matches; nothing is discarded and nothing
raises. -/
theorem c8_connection_date (row : Row) :
    (buildContact row).connected_on
      = (match tryFormats linkedinFormats (resolveConnectedOn row) with
         | some d => isoformat d
         | none => resolveConnectedOn row)
    ∧ (buildContact rowIso).connected_on = str "2024-01-05T00:00:00"
    ∧ (buildContact rowRaw).connected_on = str "Jan sometime 2024" := by
  refine ⟨?_, by decide, by decide⟩
  by_cases h : resolveConnectedOn row = []
  · rw [h]
    simp [buildContact, h]
    rw [show tryFormats linkedinFormats ([] : Str) = none from by decide]
  · simp [buildContact, h]

/-- Claim C9: the cosmetic domain label is the company string lowercased with
spaces and commas removed, truncated to at most 20 characters; company
`Acme, Inc.` yields exactly `acmeinc.`. -/
theorem c9_domain_label (row : Row) :
    (buildContact row).domain
      = (removeChar ',' (removeChar ' ' (lowerStr (resolveCompany row)))).take 20
    ∧ (buildContact row).domain.length ≤ 20
    ∧ (buildContact acmeRow).domain = str "acmeinc." := by
  have h1 : (buildContact row).domain
      = (removeChar ',' (removeChar ' ' (lowerStr (resolveCompany row)))).take 20 := by
    by_cases h : resolveCompany row = []
    · simp [buildContact, h, removeChar, lowerStr]
    · simp [buildContact, h]
  refine ⟨h1, ?_, by decide⟩
  rw [h1, List.length_take]
  exact Nat.min_le_left _ _

end ECE
